import Mathlib

/-!
Verification of the VisionX desktop front-end (Vue + Tauri) against its
natural-language specification.

The definitions below are a shallow embedding of the TypeScript code in
`visionx-app/src`: JavaScript numbers are modelled as rationals (`ℚ`),
JavaScript strings as Lean `String`, reactive refs as fields of explicit
state records, and the asynchronous backend invocation as a function that
receives the invocation outcome (`Except`) as an argument and reports the
call it issued.  The core processing pipeline (Session Orchestrator /
Track Aggregator) is not part of the front-end sources; where a claim is
about it, the component is modelled from the specification and marked as
such in its doc comment.
-/

namespace VisionX

/-! ## JavaScript primitives -/

/-- JavaScript `Math.round`: round half away from zero on the positive side,
which for every real input agrees with `⌊x + 1/2⌋`. -/
def jsRound (q : ℚ) : ℤ := ⌊q + 1/2⌋

/-- Decides whether the first character list is a prefix of the second
(`String.prototype.startsWith` on code points). -/
def isPrefixChars : List Char → List Char → Bool
  | [], _ => true
  | _ :: _, [] => false
  | a :: as, b :: bs => a = b && isPrefixChars as bs

/-- Decides whether `sub` occurs as a contiguous substring of the second
list (`String.prototype.includes`). -/
def hasSubstring (sub : List Char) : List Char → Bool
  | [] => isPrefixChars sub []
  | c :: rest => isPrefixChars sub (c :: rest) || hasSubstring sub rest

/-- JavaScript `String.prototype.toLowerCase`, restricted to the ASCII
letters that occur in the strings this application compares. -/
def jsToLower (s : String) : String := ⟨s.data.map Char.toLower⟩

/-- JavaScript `String.prototype.includes` on whole strings. -/
def jsIncludes (s sub : String) : Bool := hasSubstring sub.data s.data

/-- The WhiteSpace/LineTerminator characters stripped by
`String.prototype.trim` (the ASCII ones plus NBSP and the BOM). -/
def isJsWhitespace (c : Char) : Bool :=
  c = ' ' || c = '\t' || c = '\n' || c = '\r' ||
  c = '\x0b' || c = '\x0c' || c = ' ' || c = '﻿'

/-- JavaScript `String.prototype.trim`: strip whitespace from both ends. -/
def jsTrim (s : String) : String :=
  ⟨((s.data.dropWhile isJsWhitespace).reverse.dropWhile isJsWhitespace).reverse⟩

/-! ## ProgressBar.vue -/

/-- The props of `ProgressBar.vue`. -/
structure ProgressProps where
  currentVideo : String
  currentFrame : ℚ
  totalFrames : ℚ
  videoIndex : ℚ
  totalVideos : ℚ
  fps : ℚ
deriving Repr, DecidableEq

/-- `framePercent` computed property of `ProgressBar.vue`. -/
def framePercent (p : ProgressProps) : ℤ :=
  if p.totalFrames = 0 then 0
  else jsRound (p.currentFrame / p.totalFrames * 100)

/-- `overallPercent` computed property of `ProgressBar.vue`:
`completedVideos = videoIndex - 1`, then
`round(((completedVideos + currentFrame/totalFrames) / totalVideos) * 100)`. -/
def overallPercent (p : ProgressProps) : ℤ :=
  if p.totalVideos = 0 then 0
  else if p.totalFrames = 0 then 0
  else jsRound ((p.videoIndex - 1 + p.currentFrame / p.totalFrames) / p.totalVideos * 100)

/-! ## FileSelector.vue drag-and-drop -/

/-- The recognized video file extensions of `FileSelector.vue`. -/
def videoExtensions : List String :=
  ["mp4", "avi", "mov", "mkv", "wmv", "flv", "webm", "m4v", "mpeg", "mpg", "3gp", "ts", "mts"]

/-- JavaScript `String.prototype.split` with a one-character separator,
on code-point lists: always returns at least one (possibly empty) segment. -/
def splitChar (sep : Char) : List Char → List (List Char)
  | [] => [[]]
  | c :: rest =>
    let r := splitChar sep rest
    if c = sep then [] :: r
    else
      match r with
      | [] => [[c]]
      | seg :: segs => (c :: seg) :: segs

/-- The per-path filter of the drop handler:
`ext = p.split(.).pop()?.toLowerCase(); ext && videoExtensions.includes(ext)`. -/
def hasVideoExt (p : String) : Bool :=
  let ext : String := ⟨((splitChar '.' p.data).getLastD []).map Char.toLower⟩
  ext != "" && videoExtensions.contains ext

/-- The `drop` branch of the `onDragDropEvent` handler of `FileSelector.vue`:
returns the list emitted with `filesSelected`, or `none` when nothing is
emitted. -/
def onDrop (paths : List String) : Option (List String) :=
  if 0 < paths.length then
    let videoFiles := paths.filter hasVideoExt
    if 0 < videoFiles.length then some videoFiles else none
  else none

/-! ## App.vue state -/

/-- The `settings` ref of `App.vue` / the `Settings` interface of
`SettingsPanel.vue`. -/
structure Settings where
  confidence : ℚ
  stride : ℚ
  halfPrecision : Bool
  outputDir : String
  searchPrompts : List String
deriving Repr, DecidableEq

/-- The initial value of the `settings` ref in `App.vue`. -/
def initialSettings : Settings :=
  { confidence := 65/100, stride := 1, halfPrecision := false,
    outputDir := "", searchPrompts := [] }

/-- The `progress` ref of `App.vue`. -/
structure ProgressState where
  currentVideo : String
  currentFrame : ℚ
  totalFrames : ℚ
  videoIndex : ℚ
  totalVideos : ℚ
  fps : ℚ
deriving Repr, DecidableEq

/-- The initial value of the `progress` ref in `App.vue`. -/
def initialProgress : ProgressState :=
  { currentVideo := "", currentFrame := 0, totalFrames := 0,
    videoIndex := 0, totalVideos := 0, fps := 0 }

/-- The `AppView` union type of `App.vue`. -/
inductive AppView where
  | landing
  | select
  | processing
  | results
deriving Repr, DecidableEq

/-- The reactive state of `App.vue`. -/
structure AppState where
  currentView : AppView
  selectedFiles : List String
  settings : Settings
  progress : ProgressState
  isProcessing : Bool
  processingError : Option String
  reports : List String
  selectedReport : Option String
deriving Repr, DecidableEq

/-- The state of `App.vue` when it mounts. -/
def initialAppState : AppState :=
  { currentView := .landing, selectedFiles := [], settings := initialSettings,
    progress := initialProgress, isProcessing := false, processingError := none,
    reports := [], selectedReport := none }

/-- The payload of the `progress` event listened to in `App.vue`
(snake_case fields, as emitted by the backend). -/
structure ProgressPayload where
  event_type : String
  video : String
  frame : ℚ
  total_frames : ℚ
  video_index : ℚ
  total_videos : ℚ
  fps : ℚ
deriving Repr, DecidableEq

/-- The `progress` event handler registered in `onMounted` of `App.vue`:
overwrites the `progress` ref with the six payload fields. -/
def handleProgressEvent (s : AppState) (e : ProgressPayload) : AppState :=
  { s with progress :=
    { currentVideo := e.video, currentFrame := e.frame,
      totalFrames := e.total_frames, videoIndex := e.video_index,
      totalVideos := e.total_videos, fps := e.fps } }

/-! ## App.vue startProcessing -/

/-- One value of the JavaScript object literal passed as `config`. -/
inductive ConfigValue where
  | num (q : ℚ)
  | boolean (b : Bool)
  | str (s : String)
  | strList (l : List String)
deriving Repr, DecidableEq

/-- The `config` object literal built in `startProcessing` of `App.vue`,
as the ordered key/value list of the JavaScript object. -/
def buildRunConfig (s : Settings) : List (String × ConfigValue) :=
  [("confidence", .num s.confidence),
   ("stride", .num s.stride),
   ("half_precision", .boolean s.halfPrecision),
   ("output_dir", .str s.outputDir),
   ("search_prompts", .strList s.searchPrompts)]

/-- The recognized configuration options enumerated by the specification
(§6 and §9), including the chain flag.  Kept for comparison with the keys
the front-end actually passes. -/
def specRecognizedOptions : List String :=
  ["confidence", "stride", "halfPrecision", "outputDir", "searchPrompts", "chain"]

/-- The arguments of the `invoke("process_videos", …)` call. -/
structure InvokeCall where
  files : List String
  config : List (String × ConfigValue)
deriving Repr, DecidableEq

/-- The cancellation test of the `catch` branch:
`errorStr.toLowerCase().includes("cancelled")`. -/
def isCancelledError (e : String) : Bool := jsIncludes (jsToLower e) "cancelled"

/-- `startProcessing` of `App.vue`.  The asynchronous
`invoke("process_videos", …)` is shallowly embedded by taking its outcome
(`Except` of the rejection string and the resolved report list) as an
argument; the second component of the result is the call issued to the
backend (`none` when the `canProcess` guard rejects).  The `finally`
branch (`isProcessing = false`) runs in all non-guard cases. -/
def startProcessing (s : AppState) (outcome : Except String (List String)) :
    AppState × Option InvokeCall :=
  if s.selectedFiles.length = 0 then (s, none)
  else
    let s1 := { s with
      currentView := .processing, isProcessing := true, processingError := none,
      progress := { currentVideo := s.selectedFiles.getD 0 "", currentFrame := 0,
                    totalFrames := 0, videoIndex := 1,
                    totalVideos := (s.selectedFiles.length : ℚ), fps := 0 } }
    let call : InvokeCall := { files := s.selectedFiles, config := buildRunConfig s.settings }
    match outcome with
    | .ok result =>
        ({ s1 with
            reports := result,
            selectedReport := if 0 < result.length then some (result.getD 0 "")
                              else s1.selectedReport,
            currentView := .results,
            isProcessing := false }, some call)
    | .error e =>
        ({ s1 with
            processingError := if isCancelledError e then none else some e,
            currentView := .select,
            isProcessing := false }, some call)

/-! ## SettingsPanel.vue -/

/-- The settings states producible through the settings panel, starting
from the initial `settings` ref of `App.vue`.  The two range inputs have
`min="0" max="1" step="0.05"` (confidence) and `min="1" max="10" step="1"`
(stride), so they produce exactly the values `k * 0.05` (`k ≤ 20`) and the
integers `1..10`; the checkbox sets `halfPrecision`; `addPrompt` pushes
`newPrompt.trim()` when it is non-empty; `removePrompt` splices one entry
out. -/
inductive SettingsReachable : Settings → Prop where
  | init : SettingsReachable initialSettings
  | setConfidence {s : Settings} (k : ℕ) (hk : k ≤ 20) :
      SettingsReachable s → SettingsReachable { s with confidence := (k : ℚ) / 20 }
  | setStride {s : Settings} (n : ℕ) (h1 : 1 ≤ n) (h2 : n ≤ 10) :
      SettingsReachable s → SettingsReachable { s with stride := (n : ℚ) }
  | setHalfPrecision {s : Settings} (b : Bool) :
      SettingsReachable s → SettingsReachable { s with halfPrecision := b }
  | addPrompt {s : Settings} (t : String) (h : jsTrim t ≠ "") :
      SettingsReachable s →
      SettingsReachable { s with searchPrompts := s.searchPrompts ++ [jsTrim t] }
  | removePrompt {s : Settings} (i : ℕ) :
      SettingsReachable s →
      SettingsReachable { s with searchPrompts := s.searchPrompts.eraseIdx i }

/-! ## Track Aggregator (spec-modelled)

The Session Orchestrator / Track Aggregator core is not part of the
front-end sources under `visionx-app/src`; the following definitions are
modelled from the specification. -/

/-- A bounding rectangle (spec §3, Detection.bbox). -/
structure Rect where
  x : ℚ
  y : ℚ
  w : ℚ
  h : ℚ
deriving Repr, DecidableEq

/-- Modelled from the spec: a Detection (§3) as consumed by the
Aggregator — class label, confidence, bounding geometry and the
tracker-assigned identity. -/
structure Detection where
  classLabel : String
  confidence : ℚ
  bbox : Rect
  trackId : ℕ
deriving Repr, DecidableEq

/-- One recorded observation of a track (frame index, label, confidence,
bbox); the rolling label histogram of a Track is the
(label, confidence) projection of its cumulative observation list. -/
structure ObsRec where
  frameIndex : ℕ
  classLabel : String
  confidence : ℚ
  bbox : Rect
deriving Repr, DecidableEq

/-- Modelled from the spec: an open Track (§3) — first-seen frame,
last-seen frame, cumulative observations and the best-confidence
observation. -/
structure Track where
  firstIdx : ℕ
  lastIdx : ℕ
  obs : List ObsRec
  best : ObsRec
deriving Repr, DecidableEq

/-- Modelled from the spec: a finalized Sighting (§3). -/
structure Sighting where
  trackId : ℕ
  sourceVideo : String
  videoIndex : ℕ
  classLabel : String
  confidence : ℚ
  startTime : ℚ
  endTime : ℚ
  thumbFrame : ℕ
  bbox : Rect
deriving Repr, DecidableEq

/-- The per-video configuration of the Aggregator: the video identifier,
its index in the run, the global clock offset of chain mode (0 otherwise),
the frame duration, and the grace window expressed as
`graceFrames × stride` (§4.2). -/
structure AggCfg where
  video : String
  videoIndex : ℕ
  offset : ℚ
  frameDuration : ℚ
  graceFrames : ℕ
  stride : ℕ
deriving Repr, DecidableEq

/-- Modelled from the spec: the Aggregator state — the open Tracks keyed
by `trackId`, the ids of Tracks already closed within this video (a
closed id never reopens, §3/§4.2), and the finalized Sightings. -/
structure AggState where
  openTracks : List (ℕ × Track)
  closedIds : List ℕ
  sightings : List Sighting
deriving Repr, DecidableEq

/-- The Aggregator state at the start of a video: the tracker identity
space starts fresh for every video (§4.1). -/
def initAggState : AggState := ⟨[], [], []⟩

/-- The histogram score of one label inside an observation list:
occurrence count and cumulative confidence (§4.2, label resolution). -/
def labelScore (obs : List ObsRec) (lab : String) : ℕ × ℚ :=
  ((obs.filter (fun o => o.classLabel = lab)).length,
   ((obs.filter (fun o => o.classLabel = lab)).map ObsRec.confidence).sum)

/-- Modelled from the spec: label resolution (§4.2) — the majority label
of the Track histogram, ties broken by highest cumulative confidence. -/
def resolveLabel (t : Track) : String :=
  (t.obs.map ObsRec.classLabel).foldl
    (fun acc lab =>
      if (labelScore t.obs acc).1 < (labelScore t.obs lab).1 ∨
          ((labelScore t.obs acc).1 = (labelScore t.obs lab).1 ∧
            (labelScore t.obs acc).2 < (labelScore t.obs lab).2)
      then lab else acc)
    t.best.classLabel

/-- The observation record of one detection at one frame. -/
def mkObsRec (f : ℕ) (d : Detection) : ObsRec :=
  ⟨f, d.classLabel, d.confidence, d.bbox⟩

/-- A Track seeded with its first observation (§4.2). -/
def newTrack (f : ℕ) (d : Detection) : Track :=
  ⟨f, f, [mkObsRec f d], mkObsRec f d⟩

/-- Updating an open Track with a new observation: advance the last-seen
frame, append to the cumulative observations, and replace the
best-confidence observation when strictly exceeded (§4.2). -/
def updateTrack (f : ℕ) (d : Detection) (t : Track) : Track :=
  { t with
    lastIdx := f,
    obs := t.obs ++ [mkObsRec f d],
    best := if t.best.confidence < d.confidence then mkObsRec f d else t.best }

/-- Finalizing a Track into an immutable Sighting (§4.2): timestamps are
`offset + frameIndex × frameDuration` (§4.1), the representative
confidence is the best observed one, imagery comes from the
best-confidence observation. -/
def finalizeTrack (cfg : AggCfg) (e : ℕ × Track) : Sighting :=
  { trackId := e.1, sourceVideo := cfg.video, videoIndex := cfg.videoIndex,
    classLabel := resolveLabel e.2, confidence := e.2.best.confidence,
    startTime := cfg.offset + (e.2.firstIdx : ℚ) * cfg.frameDuration,
    endTime := cfg.offset + (e.2.lastIdx : ℚ) * cfg.frameDuration,
    thumbFrame := e.2.best.frameIndex, bbox := e.2.best.bbox }

/-- Closes every open Track selected by `p`: the selected Tracks are
finalized, their ids retired, and the Sightings appended to the output
list. -/
def closeWith (cfg : AggCfg) (p : ℕ × Track → Bool) (st : AggState) : AggState :=
  { openTracks := st.openTracks.filter (fun e => !(p e)),
    closedIds := st.closedIds ++ (st.openTracks.filter p).map Prod.fst,
    sightings := st.sightings ++ (st.openTracks.filter p).map (finalizeTrack cfg) }

/-- Grace-window expiry at frame `f` (§4.2): the id has not appeared for
more than `graceFrames × stride` frame-equivalents. -/
def isExpired (cfg : AggCfg) (f : ℕ) (e : ℕ × Track) : Bool :=
  cfg.graceFrames * cfg.stride < f - e.2.lastIdx

/-- Modelled from the spec: folding one detection into the Aggregator
(§4.2).  A retired id never reopens (§3: "a track, once closed, never
reopens under the same id"); otherwise the open Track is updated, or a
fresh one is seeded. -/
def observeDet (f : ℕ) (st : AggState) (d : Detection) : AggState :=
  if d.trackId ∈ st.closedIds then st
  else if st.openTracks.any (fun e => e.1 == d.trackId) then
    { st with
      openTracks := st.openTracks.map
        (fun e => if e.1 = d.trackId then (e.1, updateTrack f d e.2) else e) }
  else
    { st with openTracks := st.openTracks ++ [(d.trackId, newTrack f d)] }

/-- Modelled from the spec: `observe(detections-for-one-frame)` (§4.2) —
first close the Tracks whose grace window expired at this frame, then
fold in the frame's detections. -/
def observeFrame (cfg : AggCfg) (st : AggState) (f : ℕ) (dets : List Detection) : AggState :=
  dets.foldl (observeDet f) (closeWith cfg (isExpired cfg f) st)

/-- Modelled from the spec: `closeVideo()` (§4.2) — finalize every still
open Track at the end of the video's frames. -/
def closeVideo (cfg : AggCfg) (st : AggState) : AggState :=
  closeWith cfg (fun _ => true) st

/-- Modelled from the spec: `closeAll()` (§4.2), the cancellation path —
identical closing behavior. -/
def closeAll (cfg : AggCfg) (st : AggState) : AggState :=
  closeWith cfg (fun _ => true) st

/-- One video processed end to end: observations folded frame by frame,
then the end-of-video close. -/
def runVideo (cfg : AggCfg) (frames : List (ℕ × List Detection)) : AggState :=
  closeVideo cfg (frames.foldl (fun st fr => observeFrame cfg st fr.1 fr.2) initAggState)

/-- A whole run: each video gets a fresh Aggregator (§4.1 — identity is
never continued across a video boundary, even in chain mode) and the
finalized Sightings are concatenated. -/
def runSession (videos : List (AggCfg × List (ℕ × List Detection))) : List Sighting :=
  (videos.map (fun v => (runVideo v.1 v.2).sightings)).flatten

/-! ## Concrete sample values used by witnesses -/

/-- A select-view state with one chosen video file. -/
def sampleRunState : AppState :=
  { initialAppState with currentView := .select, selectedFiles := ["a.mp4"] }

/-- A select-view state reached after an earlier successful run: a report
is still selected from before. -/
def staleReportState : AppState :=
  { initialAppState with
    currentView := .select,
    selectedFiles := ["b.mp4"],
    reports := ["old.html"],
    selectedReport := some "old.html" }

/-- A sample per-video Aggregator configuration (one-second frames,
stride 1). -/
def sampleCfg : AggCfg :=
  { video := "v1.mp4", videoIndex := 0, offset := 0, frameDuration := 1,
    graceFrames := 5, stride := 1 }

/-- A sample detection. -/
def sampleDet : Detection :=
  { classLabel := "car", confidence := 1, bbox := ⟨0, 0, 1, 1⟩, trackId := 7 }

/-- A sample one-video run with the same track observed on two frames. -/
def sampleVideos : List (AggCfg × List (ℕ × List Detection)) :=
  [(sampleCfg, [(0, [sampleDet]), (1, [sampleDet])])]

/-- A well-formed open-Track entry relative to the highest frame index
`b` processed so far. -/
abbrev TrackOk (b : ℕ) (e : ℕ × Track) : Prop :=
  e.2.firstIdx ≤ e.2.lastIdx ∧ e.2.lastIdx ≤ b

/-- The per-Sighting facts the invariant carries. -/
abbrev SightingOk (cfg : AggCfg) (s : Sighting) : Prop :=
  s.startTime ≤ s.endTime ∧ s.sourceVideo = cfg.video

/-- The Aggregator invariant, relative to the highest frame index `b`
processed so far. -/
abbrev AggInv (cfg : AggCfg) (b : ℕ) (st : AggState) : Prop :=
  (∀ e ∈ st.openTracks, TrackOk b e) ∧
  (st.openTracks.map Prod.fst).Nodup ∧
  (∀ e ∈ st.openTracks, e.1 ∉ st.closedIds) ∧
  (∀ s ∈ st.sightings, s.trackId ∈ st.closedIds) ∧
  (st.sightings.map Sighting.trackId).Nodup ∧
  (∀ s ∈ st.sightings, SightingOk cfg s)

/-! ## Helper lemmas on lists and trimming -/

theorem dropWhile_length_le (p : Char → Bool) (l : List Char) :
    (l.dropWhile p).length ≤ l.length := by
  induction l with
  | nil => simp
  | cons a t ih =>
    rw [List.dropWhile_cons]
    by_cases h : p a = true
    · rw [if_pos h]; exact Nat.le_succ_of_le ih
    · simp [h]

theorem dropWhile_dropWhile (p : Char → Bool) (l : List Char) :
    (l.dropWhile p).dropWhile p = l.dropWhile p := by
  induction l with
  | nil => rfl
  | cons a t ih =>
    rw [List.dropWhile_cons]
    by_cases h : p a = true
    · rw [if_pos h]; exact ih
    · rw [if_neg h, List.dropWhile_cons, if_neg h]

theorem dropWhile_eq_self_of_append (p : Char → Bool) {l₁ l₂ : List Char}
    (h : (l₁ ++ l₂).dropWhile p = l₁ ++ l₂) : l₁.dropWhile p = l₁ := by
  cases l₁ with
  | nil => rfl
  | cons a t =>
    rw [List.cons_append, List.dropWhile_cons] at h
    by_cases hp : p a = true
    · rw [if_pos hp] at h
      have hlen := congrArg List.length h
      have hle := dropWhile_length_le p (t ++ l₂)
      simp only [List.length_cons, List.length_append] at hlen hle
      omega
    · rw [List.dropWhile_cons, if_neg hp]

theorem reverse_dropWhile_reverse_trimmed (p : Char → Bool) (l : List Char)
    (h : l.dropWhile p = l) :
    ((l.reverse.dropWhile p).reverse).dropWhile p = (l.reverse.dropWhile p).reverse := by
  have hdecomp : (l.reverse.dropWhile p).reverse ++ (l.reverse.takeWhile p).reverse = l := by
    rw [← List.reverse_append, List.takeWhile_append_dropWhile, List.reverse_reverse]
  exact dropWhile_eq_self_of_append p (hdecomp.symm ▸ h)

theorem jsTrim_idem (s : String) : jsTrim (jsTrim s) = jsTrim s := by
  have key : ∀ l : List Char,
      (((((((l.dropWhile isJsWhitespace).reverse.dropWhile isJsWhitespace).reverse).dropWhile
          isJsWhitespace).reverse).dropWhile isJsWhitespace)).reverse
        = ((l.dropWhile isJsWhitespace).reverse.dropWhile isJsWhitespace).reverse := by
    intro l
    have hB := reverse_dropWhile_reverse_trimmed isJsWhitespace
      (l.dropWhile isJsWhitespace) (dropWhile_dropWhile isJsWhitespace l)
    rw [hB, List.reverse_reverse, dropWhile_dropWhile]
  exact congrArg String.mk (key s.data)

/-! ## Claim theorems for the progress display (C8) -/

/-- C8: the percentage computations of `ProgressBar.vue` are total and
guard every division: with `totalFrames = 0` both `framePercent` and
`overallPercent` are `0`, and with `totalVideos = 0` `overallPercent` is
`0`; division is performed only under a nonzero divisor. -/
theorem C8_percent_total (p : ProgressProps) :
    (p.totalFrames = 0 → framePercent p = 0 ∧ overallPercent p = 0) ∧
    (p.totalVideos = 0 → overallPercent p = 0) := by
  refine ⟨fun h => ⟨?_, ?_⟩, fun h => ?_⟩
  · simp [framePercent, h]
  · unfold overallPercent
    by_cases hv : p.totalVideos = 0 <;> simp [hv, h]
  · simp [overallPercent, h]

theorem C8_witness :
    framePercent ⟨"", 0, 0, 0, 0, 0⟩ = 0 ∧ overallPercent ⟨"", 0, 0, 0, 0, 0⟩ = 0 :=
  ⟨((C8_percent_total ⟨"", 0, 0, 0, 0, 0⟩).1 rfl).1, (C8_percent_total ⟨"", 0, 0, 0, 0, 0⟩).2 rfl⟩

/-! ## Claim theorems for drag-and-drop (C9) -/

/-- C9: the drop handler of `FileSelector.vue` emits `filesSelected` if
and only if at least one dropped path passes the video-extension filter,
and the emitted list is exactly the paths that pass it (hence every
emitted path has a recognized video extension, compared
case-insensitively); drops with only non-video paths emit nothing. -/
theorem C9_drop_video_filter (paths : List String) :
    ((onDrop paths).isSome = true ↔ ∃ q ∈ paths, hasVideoExt q = true) ∧
    (∀ l, onDrop paths = some l →
      l = paths.filter hasVideoExt ∧ ∀ q ∈ l, hasVideoExt q = true) := by
  unfold onDrop
  by_cases hp : 0 < paths.length
  · rw [if_pos hp]
    by_cases hv : 0 < (paths.filter hasVideoExt).length
    · rw [if_pos hv]
      refine ⟨⟨fun _ => ?_, fun _ => rfl⟩, fun l hl => ?_⟩
      · obtain ⟨q, hq⟩ := List.exists_mem_of_ne_nil _ (List.length_pos.mp hv)
        exact ⟨q, (List.mem_filter.mp hq).1, (List.mem_filter.mp hq).2⟩
      · have hinj : paths.filter hasVideoExt = l := by injection hl
        subst hinj
        exact ⟨rfl, fun q hq => (List.mem_filter.mp hq).2⟩
    · rw [if_neg hv]
      refine ⟨⟨fun h => by simp at h, fun hex => ?_⟩, fun l hl => Option.noConfusion hl⟩
      obtain ⟨q, hqm, hqp⟩ := hex
      exact absurd (List.length_pos.mpr
        (List.ne_nil_of_mem (List.mem_filter.mpr ⟨hqm, hqp⟩))) hv
  · rw [if_neg hp]
    have hnil : paths = [] := by
      cases paths with
      | nil => rfl
      | cons a t => exact absurd (by simp) hp
    subst hnil
    refine ⟨⟨fun h => by simp at h, fun hex => ?_⟩, fun l hl => Option.noConfusion hl⟩
    obtain ⟨q, hq, _⟩ := hex
    exact absurd hq (List.not_mem_nil q)

theorem C9_witness :
    (onDrop ["a.MP4", "notes.txt"]).isSome = true ∧
    ∀ q ∈ ["a.MP4"], hasVideoExt q = true := by
  have h := C9_drop_video_filter ["a.MP4", "notes.txt"]
  refine ⟨h.1.mpr ⟨"a.MP4", by decide, by decide⟩, fun q hq => ?_⟩
  exact (h.2 ["a.MP4"] (by decide)).2 q hq

/-! ## Claim theorems for App.vue (C10, C6) -/

/-- C10: with an empty selection `startProcessing` is a no-op — the
`canProcess` guard rejects, no backend invocation is issued, and the whole
state (view, progress, error, reports) is returned unchanged. -/
theorem C10_empty_selection_noop (s : AppState) (h : s.selectedFiles.length = 0)
    (outcome : Except String (List String)) :
    startProcessing s outcome = (s, none) := by
  unfold startProcessing
  rw [if_pos h]

theorem C10_witness :
    startProcessing initialAppState (Except.ok ["r.html"]) = (initialAppState, none) :=
  C10_empty_selection_noop initialAppState rfl (Except.ok ["r.html"])

/-- C6: the `progress` event handler of `App.vue` maps the six payload
fields one-to-one onto the displayed progress state (`video → currentVideo`,
`frame → currentFrame`, `total_frames → totalFrames`,
`video_index → videoIndex`, `total_videos → totalVideos`, `fps → fps`)
and persists nothing anywhere else: every other state field is
unchanged. -/
theorem C6_progress_mapping (s : AppState) (e : ProgressPayload) :
    (handleProgressEvent s e).progress.currentVideo = e.video ∧
    (handleProgressEvent s e).progress.currentFrame = e.frame ∧
    (handleProgressEvent s e).progress.totalFrames = e.total_frames ∧
    (handleProgressEvent s e).progress.videoIndex = e.video_index ∧
    (handleProgressEvent s e).progress.totalVideos = e.total_videos ∧
    (handleProgressEvent s e).progress.fps = e.fps ∧
    (handleProgressEvent s e).currentView = s.currentView ∧
    (handleProgressEvent s e).selectedFiles = s.selectedFiles ∧
    (handleProgressEvent s e).settings = s.settings ∧
    (handleProgressEvent s e).isProcessing = s.isProcessing ∧
    (handleProgressEvent s e).processingError = s.processingError ∧
    (handleProgressEvent s e).reports = s.reports ∧
    (handleProgressEvent s e).selectedReport = s.selectedReport :=
  ⟨rfl, rfl, rfl, rfl, rfl, rfl, rfl, rfl, rfl, rfl, rfl, rfl, rfl⟩

/-! ## Claim theorems for the run invocation surface (C1) -/

/-- C1 counterexample: a run started from the caller (file selected,
guard passed, `invoke` issued) whose passed configuration carries exactly
the keys `confidence`, `stride`, `half_precision`, `output_dir`,
`search_prompts` — and no chain flag, although the spec's recognized
options include one. -/
theorem C1_counterexample :
    (startProcessing sampleRunState (Except.ok ["r.html"])).2.isSome = true ∧
    ((startProcessing sampleRunState (Except.ok ["r.html"])).2.map
      (fun c => c.config.map Prod.fst)) =
      some ["confidence", "stride", "half_precision", "output_dir", "search_prompts"] ∧
    ((startProcessing sampleRunState (Except.ok ["r.html"])).2.map
      (fun c => decide ("chain" ∈ c.config.map Prod.fst))) = some false ∧
    "chain" ∈ specRecognizedOptions := by
  decide

/-- C1 amended: every run started from the caller passes the selected
files together with a configuration holding exactly the confidence
threshold, stride, half-precision flag, output directory and custom
search prompts — but no chain flag. -/
theorem C1_run_config_fields (s : AppState) (h : ¬ s.selectedFiles.length = 0)
    (outcome : Except String (List String)) :
    (startProcessing s outcome).2 =
      some { files := s.selectedFiles, config := buildRunConfig s.settings } ∧
    (buildRunConfig s.settings).map Prod.fst =
      ["confidence", "stride", "half_precision", "output_dir", "search_prompts"] := by
  constructor
  · unfold startProcessing
    rw [if_neg h]
    cases outcome <;> rfl
  · rfl

theorem C1_witness :
    (startProcessing sampleRunState (Except.ok [])).2 =
      some { files := sampleRunState.selectedFiles,
             config := buildRunConfig sampleRunState.settings } ∧
    (buildRunConfig sampleRunState.settings).map Prod.fst =
      ["confidence", "stride", "half_precision", "output_dir", "search_prompts"] :=
  C1_run_config_fields sampleRunState (by decide) (Except.ok [])

/-! ## Claim theorems for cancellation and failure handling (C2, C3) -/

/-- C2: when a run rejects with a cancellation status (the error string
contains "cancelled" — the handler compares after lowercasing), the
caller's `processingError` stays `null`, so the `v-if="processingError"`
error banner never shows; every non-cancellation rejection stores the
error string in `processingError`. -/
theorem C2_cancellation_not_error (s : AppState) (e : String)
    (h : ¬ s.selectedFiles.length = 0) :
    (isCancelledError e = true →
      (startProcessing s (Except.error e)).1.processingError = none) ∧
    (isCancelledError e = false →
      (startProcessing s (Except.error e)).1.processingError = some e) := by
  unfold startProcessing
  rw [if_neg h]
  constructor <;> intro hc <;> simp [hc]

theorem C2_witness :
    (startProcessing sampleRunState
      (Except.error "Processing was Cancelled by the user")).1.processingError = none :=
  (C2_cancellation_not_error sampleRunState "Processing was Cancelled by the user"
    (by decide)).1 (by decide)

/-- C3: a rejected run (cancellation included) produces no report — the
caller's `reports` list and `selectedReport` keep their values from
before the run, and the view returns to the selection state. -/
theorem C3_no_report_on_rejection (s : AppState) (e : String)
    (h : ¬ s.selectedFiles.length = 0) :
    (startProcessing s (Except.error e)).1.reports = s.reports ∧
    (startProcessing s (Except.error e)).1.selectedReport = s.selectedReport ∧
    (startProcessing s (Except.error e)).1.currentView = AppView.select := by
  unfold startProcessing
  rw [if_neg h]
  exact ⟨rfl, rfl, rfl⟩

theorem C3_witness :
    (startProcessing staleReportState (Except.error "cancelled")).1.reports =
      staleReportState.reports ∧
    (startProcessing staleReportState (Except.error "cancelled")).1.selectedReport =
      staleReportState.selectedReport ∧
    (startProcessing staleReportState (Except.error "cancelled")).1.currentView =
      AppView.select :=
  C3_no_report_on_rejection staleReportState "cancelled" (by decide)

/-! ## Claim theorems for successful runs (C7) -/

/-- C7 counterexample: a run resolving successfully with an empty report
list, started from a state in which a report from an earlier run is still
selected — the selected report does not become (or stay) `null`, it keeps
its previous non-null value. -/
theorem C7_counterexample :
    (startProcessing staleReportState (Except.ok [])).1.reports = [] ∧
    (startProcessing staleReportState (Except.ok [])).1.selectedReport = some "old.html" ∧
    ¬ (startProcessing staleReportState (Except.ok [])).1.selectedReport = none := by
  decide

/-- C7 amended: a successful run stores exactly the resolved list as
`reports` and moves the view to the results state; with a non-empty
result the first element is auto-selected, and with an empty result the
selected report is left unchanged (which is `null` only when it already
was `null` before the run). -/
theorem C7_success_reports (s : AppState) (h : ¬ s.selectedFiles.length = 0)
    (result : List String) :
    (startProcessing s (Except.ok result)).1.reports = result ∧
    (startProcessing s (Except.ok result)).1.currentView = AppView.results ∧
    (0 < result.length →
      (startProcessing s (Except.ok result)).1.selectedReport = some (result.getD 0 "")) ∧
    (result.length = 0 →
      (startProcessing s (Except.ok result)).1.selectedReport = s.selectedReport) := by
  unfold startProcessing
  rw [if_neg h]
  refine ⟨rfl, rfl, fun hr => ?_, fun hr => ?_⟩
  · simp only [if_pos hr]
  · have : ¬ 0 < result.length := by omega
    simp only [if_neg this]

theorem C7_witness :
    (startProcessing sampleRunState (Except.ok ["r1.html", "r2.html"])).1.reports =
      ["r1.html", "r2.html"] ∧
    (startProcessing sampleRunState (Except.ok ["r1.html", "r2.html"])).1.currentView =
      AppView.results ∧
    (startProcessing sampleRunState (Except.ok ["r1.html", "r2.html"])).1.selectedReport =
      some "r1.html" := by
  have h := C7_success_reports sampleRunState (by decide) ["r1.html", "r2.html"]
  exact ⟨h.1, h.2.1, h.2.2.1 (by decide)⟩

/-! ## Claim theorems for the settings panel (C5) -/

/-- C5: every configuration producible through the settings panel keeps
the recognized option domains: stride is one of the integers `1..10`,
confidence lies in `[0, 1]` and is a multiple of the `0.05` slider step,
the half-precision flag is a boolean, and every stored search prompt is a
non-empty trimmed string. -/
theorem C5_settings_domains (s : Settings) (h : SettingsReachable s) :
    (∃ n : ℕ, 1 ≤ n ∧ n ≤ 10 ∧ s.stride = (n : ℚ)) ∧
    (0 ≤ s.confidence ∧ s.confidence ≤ 1 ∧
      ∃ k : ℕ, k ≤ 20 ∧ s.confidence = (k : ℚ) / 20) ∧
    (s.halfPrecision = true ∨ s.halfPrecision = false) ∧
    (∀ q ∈ s.searchPrompts, q ≠ "" ∧ jsTrim q = q) := by
  induction h with
  | init =>
    refine ⟨⟨1, by norm_num, by norm_num, by norm_num [initialSettings]⟩,
      ⟨by norm_num [initialSettings], by norm_num [initialSettings],
        13, by norm_num, by norm_num [initialSettings]⟩,
      Or.inr rfl, by simp [initialSettings]⟩
  | setConfidence k hk _ ih =>
    obtain ⟨hstr, _, hbool, hprompts⟩ := ih
    refine ⟨hstr, ⟨by positivity, ?_, k, hk, rfl⟩, hbool, hprompts⟩
    have hk20 : (k : ℚ) ≤ 20 := by exact_mod_cast hk
    rw [div_le_one (by norm_num)]
    exact hk20
  | setStride n h1 h2 _ ih =>
    obtain ⟨_, hconf, hbool, hprompts⟩ := ih
    exact ⟨⟨n, h1, h2, rfl⟩, hconf, hbool, hprompts⟩
  | setHalfPrecision b _ ih =>
    obtain ⟨hstr, hconf, _, hprompts⟩ := ih
    exact ⟨hstr, hconf, by cases b <;> simp, hprompts⟩
  | addPrompt t ht _ ih =>
    obtain ⟨hstr, hconf, hbool, hprompts⟩ := ih
    refine ⟨hstr, hconf, hbool, fun q hq => ?_⟩
    rcases List.mem_append.mp hq with hq | hq
    · exact hprompts q hq
    · have hqt : q = jsTrim t := by simpa using hq
      rw [hqt]
      exact ⟨ht, jsTrim_idem t⟩
  | removePrompt i _ ih =>
    obtain ⟨hstr, hconf, hbool, hprompts⟩ := ih
    exact ⟨hstr, hconf, hbool, fun q hq =>
      hprompts q ((List.eraseIdx_sublist _ i).subset hq)⟩

theorem C5_witness :
    (∃ n : ℕ, 1 ≤ n ∧ n ≤ 10 ∧ initialSettings.stride = (n : ℚ)) ∧
    (0 ≤ initialSettings.confidence ∧ initialSettings.confidence ≤ 1 ∧
      ∃ k : ℕ, k ≤ 20 ∧ initialSettings.confidence = (k : ℚ) / 20) ∧
    (initialSettings.halfPrecision = true ∨ initialSettings.halfPrecision = false) ∧
    (∀ q ∈ initialSettings.searchPrompts, q ≠ "" ∧ jsTrim q = q) :=
  C5_settings_domains initialSettings SettingsReachable.init

/-! ## Aggregator invariant lemmas (C4) -/

theorem trackOk_mono {b b' : ℕ} (h : b ≤ b') {e : ℕ × Track} (ht : TrackOk b e) :
    TrackOk b' e :=
  ⟨ht.1, le_trans ht.2 h⟩

theorem aggInv_mono (cfg : AggCfg) {b b' : ℕ} (h : b ≤ b') {st : AggState}
    (hi : AggInv cfg b st) : AggInv cfg b' st := by
  obtain ⟨h1, h2, h3, h4, h5, h6⟩ := hi
  exact ⟨fun e he => trackOk_mono h (h1 e he), h2, h3, h4, h5, h6⟩

theorem aggInv_closeWith (cfg : AggCfg) (hdur : 0 ≤ cfg.frameDuration)
    (p : ℕ × Track → Bool) (b : ℕ) (st : AggState) (h : AggInv cfg b st) :
    AggInv cfg b (closeWith cfg p st) := by
  obtain ⟨h1, h2, h3, h4, h5, h6⟩ := h
  refine ⟨?_, ?_, ?_, ?_, ?_, ?_⟩
  · intro e he
    exact h1 e (List.mem_filter.mp he).1
  · exact h2.sublist (List.Sublist.map Prod.fst (List.filter_sublist st.openTracks))
  · intro e he hmem
    have heo := (List.mem_filter.mp he).1
    have hep := (List.mem_filter.mp he).2
    rcases List.mem_append.mp hmem with hc | hb
    · exact h3 e heo hc
    · obtain ⟨e', he', hfst⟩ := List.mem_map.mp hb
      have he'o := (List.mem_filter.mp he').1
      have he'p := (List.mem_filter.mp he').2
      have hee : e' = e := List.inj_on_of_nodup_map h2 he'o heo hfst
      rw [hee] at he'p
      simp [he'p] at hep
  · intro s hs
    rcases List.mem_append.mp hs with h' | h'
    · exact List.mem_append_left _ (h4 s h')
    · obtain ⟨e, he, rfl⟩ := List.mem_map.mp h'
      exact List.mem_append_right _ (List.mem_map.mpr ⟨e, he, rfl⟩)
  · show ((st.sightings ++ (st.openTracks.filter p).map (finalizeTrack cfg)).map
      Sighting.trackId).Nodup
    rw [List.map_append]
    have hmm : ((st.openTracks.filter p).map (finalizeTrack cfg)).map Sighting.trackId
        = (st.openTracks.filter p).map Prod.fst := by
      rw [List.map_map]
      rfl
    rw [hmm, List.nodup_append]
    refine ⟨h5, h2.sublist (List.Sublist.map Prod.fst (List.filter_sublist st.openTracks)), ?_⟩
    intro a ha hb
    obtain ⟨s, hsmem, rfl⟩ := List.mem_map.mp ha
    obtain ⟨e, heB, hefst⟩ := List.mem_map.mp hb
    have hcl : s.trackId ∈ st.closedIds := h4 s hsmem
    rw [← hefst] at hcl
    exact h3 e (List.mem_filter.mp heB).1 hcl
  · intro s hs
    rcases List.mem_append.mp hs with h' | h'
    · exact h6 s h'
    · obtain ⟨e, heB, rfl⟩ := List.mem_map.mp h'
      have htk := h1 e (List.mem_filter.mp heB).1
      refine ⟨?_, rfl⟩
      show cfg.offset + (e.2.firstIdx : ℚ) * cfg.frameDuration ≤
        cfg.offset + (e.2.lastIdx : ℚ) * cfg.frameDuration
      have hle : (e.2.firstIdx : ℚ) ≤ (e.2.lastIdx : ℚ) := by exact_mod_cast htk.1
      exact add_le_add_left (mul_le_mul_of_nonneg_right hle hdur) _

theorem aggInv_observeDet (cfg : AggCfg) (f : ℕ) (st : AggState) (d : Detection)
    (h : AggInv cfg f st) : AggInv cfg f (observeDet f st d) := by
  obtain ⟨h1, h2, h3, h4, h5, h6⟩ := h
  unfold observeDet
  by_cases hc : d.trackId ∈ st.closedIds
  · rw [if_pos hc]
    exact ⟨h1, h2, h3, h4, h5, h6⟩
  · rw [if_neg hc]
    by_cases ha : st.openTracks.any (fun e => e.1 == d.trackId) = true
    · rw [if_pos ha]
      refine ⟨?_, ?_, ?_, h4, h5, h6⟩
      · intro e' he'
        obtain ⟨e, he, rfl⟩ := List.mem_map.mp he'
        by_cases heq : e.1 = d.trackId
        · rw [if_pos heq]
          have htk := h1 e he
          exact ⟨le_trans htk.1 htk.2, le_refl f⟩
        · rw [if_neg heq]
          exact h1 e he
      · have hsame : (st.openTracks.map
            (fun e => if e.1 = d.trackId then (e.1, updateTrack f d e.2) else e)).map Prod.fst
            = st.openTracks.map Prod.fst := by
          rw [List.map_map]
          apply List.map_congr_left
          intro e _
          by_cases heq : e.1 = d.trackId
          · simp [heq]
          · simp [heq]
        rw [hsame]
        exact h2
      · intro e' he'
        obtain ⟨e, he, rfl⟩ := List.mem_map.mp he'
        by_cases heq : e.1 = d.trackId
        · rw [if_pos heq]
          show e.1 ∉ st.closedIds
          rw [heq]
          exact hc
        · rw [if_neg heq]
          exact h3 e he
    · rw [if_neg ha]
      have hid : ∀ e ∈ st.openTracks, ¬ e.1 = d.trackId := by
        intro e he heq
        apply ha
        rw [List.any_eq_true]
        exact ⟨e, he, by simp [heq]⟩
      refine ⟨?_, ?_, ?_, h4, h5, h6⟩
      · intro e' he'
        rcases List.mem_append.mp he' with he | he
        · exact h1 e' he
        · have heq : e' = (d.trackId, newTrack f d) := by simpa using he
          rw [heq]
          exact ⟨le_refl f, le_refl f⟩
      · show ((st.openTracks ++ [(d.trackId, newTrack f d)]).map Prod.fst).Nodup
        rw [List.map_append, List.nodup_append]
        refine ⟨h2, by simp, ?_⟩
        intro a hao han
        have haeq : a = d.trackId := by simpa using han
        rw [haeq] at hao
        obtain ⟨e, he, hef⟩ := List.mem_map.mp hao
        exact hid e he hef
      · intro e' he'
        rcases List.mem_append.mp he' with he | he
        · exact h3 e' he
        · have heq : e' = (d.trackId, newTrack f d) := by simpa using he
          rw [heq]
          exact hc

theorem aggInv_foldl_dets (cfg : AggCfg) (f : ℕ) (dets : List Detection) (st : AggState)
    (h : AggInv cfg f st) : AggInv cfg f (dets.foldl (observeDet f) st) := by
  induction dets generalizing st with
  | nil => exact h
  | cons d rest ih => exact ih _ (aggInv_observeDet cfg f st d h)

theorem aggInv_observeFrame (cfg : AggCfg) (hdur : 0 ≤ cfg.frameDuration) {b f : ℕ}
    (hb : b ≤ f) (st : AggState) (dets : List Detection) (h : AggInv cfg b st) :
    AggInv cfg f (observeFrame cfg st f dets) := by
  unfold observeFrame
  exact aggInv_foldl_dets cfg f dets _
    (aggInv_mono cfg hb (aggInv_closeWith cfg hdur _ b st h))

theorem aggInv_foldl_frames (cfg : AggCfg) (hdur : 0 ≤ cfg.frameDuration) :
    ∀ (frames : List (ℕ × List Detection)) (b : ℕ) (st : AggState),
      AggInv cfg b st →
      (frames.map Prod.fst).Pairwise (· ≤ ·) →
      (∀ f ∈ frames.map Prod.fst, b ≤ f) →
      ∃ b', AggInv cfg b'
        (frames.foldl (fun acc fr => observeFrame cfg acc fr.1 fr.2) st) := by
  intro frames
  induction frames with
  | nil =>
    intro b st h _ _
    exact ⟨b, h⟩
  | cons fr rest ih =>
    intro b st h hsort hge
    rw [List.map_cons, List.pairwise_cons] at hsort
    have hb : b ≤ fr.1 := hge fr.1 (by simp)
    have h1 : AggInv cfg fr.1 (observeFrame cfg st fr.1 fr.2) :=
      aggInv_observeFrame cfg hdur hb st fr.2 h
    rw [List.foldl_cons]
    exact ih fr.1 _ h1 hsort.2 (fun f hf => hsort.1 f hf)

theorem runVideo_sightings_ok (cfg : AggCfg) (hdur : 0 ≤ cfg.frameDuration)
    (frames : List (ℕ × List Detection))
    (hsort : (frames.map Prod.fst).Pairwise (· ≤ ·)) :
    (∀ s ∈ (runVideo cfg frames).sightings, SightingOk cfg s) ∧
    ((runVideo cfg frames).sightings.map Sighting.trackId).Nodup := by
  have hinit : AggInv cfg 0 initAggState := by
    refine ⟨?_, ?_, ?_, ?_, ?_, ?_⟩ <;> simp [initAggState]
  obtain ⟨b', hb'⟩ := aggInv_foldl_frames cfg hdur frames 0 initAggState hinit hsort
    (fun f _ => Nat.zero_le f)
  have hclose := aggInv_closeWith cfg hdur (fun _ => true) b' _ hb'
  unfold runVideo closeVideo
  exact ⟨hclose.2.2.2.2.2, hclose.2.2.2.2.1⟩

/-- C4: modelled from the spec (the Aggregator is not part of the
front-end sources).  For every run — frames of each video fed in
nondecreasing frame order, nonnegative frame duration, distinct video
identifiers — every finalized Sighting satisfies `endTime ≥ startTime`,
and each `(video, trackId)` pair yields at most one Sighting (a closed
track never reopens under the same id). -/
theorem C4_sighting_invariants
    (videos : List (AggCfg × List (ℕ × List Detection)))
    (hdur : ∀ v ∈ videos, 0 ≤ v.1.frameDuration)
    (hsort : ∀ v ∈ videos, (v.2.map Prod.fst).Pairwise (· ≤ ·))
    (hvids : (videos.map (fun v => v.1.video)).Nodup) :
    (∀ s ∈ runSession videos, s.startTime ≤ s.endTime) ∧
    ((runSession videos).map (fun s => (s.sourceVideo, s.trackId))).Nodup := by
  constructor
  · intro s hs
    unfold runSession at hs
    obtain ⟨l, hl, hsl⟩ := List.mem_flatten.mp hs
    obtain ⟨v, hv, rfl⟩ := List.mem_map.mp hl
    exact ((runVideo_sightings_ok v.1 (hdur v hv) v.2 (hsort v hv)).1 s hsl).1
  · unfold runSession
    rw [List.map_flatten, List.nodup_flatten]
    constructor
    · intro l' hl'
      obtain ⟨lv, hlv, rfl⟩ := List.mem_map.mp hl'
      obtain ⟨v, hv, rfl⟩ := List.mem_map.mp hlv
      have hok := runVideo_sightings_ok v.1 (hdur v hv) v.2 (hsort v hv)
      have hrw : (runVideo v.1 v.2).sightings.map (fun s => (s.sourceVideo, s.trackId))
          = ((runVideo v.1 v.2).sightings.map Sighting.trackId).map
              (fun tid => (v.1.video, tid)) := by
        rw [List.map_map]
        apply List.map_congr_left
        intro s hsmem
        have hsv := (hok.1 s hsmem).2
        simp [Function.comp, hsv]
      rw [hrw]
      refine hok.2.map ?_
      intro a b hab
      exact congrArg Prod.snd hab
    · rw [List.pairwise_map, List.pairwise_map]
      have hP : videos.Pairwise (fun u w => u.1.video ≠ w.1.video) :=
        List.pairwise_map.mp hvids
      refine List.Pairwise.imp_of_mem ?_ hP
      intro u w hu hw hne
      intro x hxu hxw
      obtain ⟨su, hsu, rfl⟩ := List.mem_map.mp hxu
      obtain ⟨sw, hsw, hx⟩ := List.mem_map.mp hxw
      have h1 := ((runVideo_sightings_ok u.1 (hdur u hu) u.2 (hsort u hu)).1 su hsu).2
      have h2 := ((runVideo_sightings_ok w.1 (hdur w hw) w.2 (hsort w hw)).1 sw hsw).2
      have hv' : w.1.video = u.1.video := by
        rw [← h2, ← h1]
        exact congrArg Prod.fst hx
      exact hne hv'.symm

theorem C4_witness :
    (∀ s ∈ runSession sampleVideos, s.startTime ≤ s.endTime) ∧
    ((runSession sampleVideos).map (fun s => (s.sourceVideo, s.trackId))).Nodup :=
  C4_sighting_invariants sampleVideos (by decide) (by decide) (by decide)

end VisionX
